import Mathlib

/-!
Verification of the font-comparison tool (`src/main.rs`, `src/world.rs`)
against its specification.

The Rust sources are shallowly embedded: pure fragments become Lean
functions, the stateful file cache becomes explicit state passing on a
`SystemWorld` record, and the ambient machine (filesystem reads, standard
directories, font decoding) becomes an explicit `Env` of oracles, so that
"independent of the real filesystem" claims can quantify over `Env`.
Machine integers of the source (`u16` weights, `u32` pixel sizes, `usize`
indices) are far from their overflow range in every modelled operation and
are embedded as `Nat`; the `f32` page-width arithmetic is embedded exactly
over `ℚ`.
-/

/-! ## Bytes, paths and file identifiers (`world.rs`) -/

/-- Raw byte content of a file (`typst::foundations::Bytes`). -/
abbrev Bytes := List Nat

/-- A filesystem path, as its list of components (`std::path::PathBuf`).
Joining paths (`Path::join`, `VirtualPath::resolve`) is list append. -/
abbrev FPath := List String

/-- A package specifier (`typst::syntax::package::PackageSpec`): namespace,
name and version, e.g. `@preview/example:0.1.0`. -/
structure PackageSpec where
  ns : String
  name : String
  version : String
deriving DecidableEq

/-- A `typst::syntax::FileId`: an optional package specifier plus a rooted
virtual path. Used as the cache key of the file catalog. -/
structure FileId where
  pkg : Option PackageSpec
  vpath : FPath
deriving DecidableEq

/-- The error type `typst::diag::FileError`, restricted to the variants `world.rs`
produces in `SystemWorld::file` and `SystemWorld::source`. -/
inductive FileError where
  | notFound (p : FPath)
  | accessDenied
  | other (msg : Option String)
  | invalidUtf8
deriving DecidableEq

/-- Outcome of one OS-level `std::fs::read`, by `io::ErrorKind` as
`SystemWorld::file` classifies it. -/
inductive ReadResult where
  | ok (b : Bytes)
  | errNotFound
  | errPermissionDenied
  | errOther (msg : String)
deriving DecidableEq

/-- Where a discovered face's bytes live (`fontdb::Source`). -/
inductive FontSource where
  | binary (b : Bytes)
  | sharedFile (p : FPath) (b : Bytes)
  | file (p : FPath)
deriving DecidableEq

/-- A decoded `typst::text::Font` is opaque to this program; an abstract
handle stands for it. -/
abbrev Font := Nat

/-- One discovered font face plus its lazily decoded form
(`world.rs` `struct FontSlot`).  `font = none` models an untouched
`OnceLock`; `font = some v` a lock initialised with `v : Option Font`
(`none` inside meaning the decode failed). -/
structure FontSlot where
  index : Nat
  source : FontSource
  font : Option (Option Font)
deriving DecidableEq

/-- The ambient machine: the host's standard directories (`dirs::data_dir`,
`dirs::cache_dir`), directory-existence tests (`Path::exists`), file reads
(`std::fs::read`) and font decoding (`Font::new`). All effects the embedded
code performs go through this record, so theorems can quantify over it. -/
structure Env where
  dataDir : Option FPath
  cacheDir : Option FPath
  dirExists : FPath → Bool
  readFile : FPath → ReadResult
  fontNew : Bytes → Nat → Option Font

/-! ## The world (`world.rs` `struct SystemWorld`)

The `library` and `book` fields of the Rust struct belong to the external
compiler's data model; the operations verified here read only `root`,
`main`, `fonts` and `files`. The `Mutex<HashMap<FileId, Bytes>>` cache is
embedded as an association list: insertion prepends, lookup takes the
first match, which reproduces `HashMap::insert`'s overwrite behaviour. -/

structure SystemWorld where
  root : FPath
  main : FileId
  fonts : List FontSlot
  files : List (FileId × Bytes)

/-- First-match lookup in the file cache (`HashMap::get` /
`Entry::Occupied`). -/
def findVal (id : FileId) : List (FileId × Bytes) → Option Bytes
  | [] => none
  | (k, v) :: rest => if k = id then some v else findVal id rest

/-- The expected install path of a package below a data or cache directory:
`["typst", "packages", namespace, name, version]` (from
`SystemWorld::file`). -/
def packageDir (spec : PackageSpec) : FPath :=
  ["typst", "packages", spec.ns, spec.name, spec.version]

/-- The root directory used for a package file, exactly as
`SystemWorld::file` computes it:
`dirs::data_dir().filter(contains).or_else(dirs::cache_dir).filter(contains)`,
with `NotFound(package_dir)` when the chain ends empty. Note that the
successful result is the data/cache directory itself, not the package's
install directory below it. -/
def resolvePackageRoot (env : Env) (spec : PackageSpec) : Except FileError FPath :=
  match ((env.dataDir.filter fun d => env.dirExists (d ++ packageDir spec)).orElse
      fun _ => env.cacheDir).filter fun c => env.dirExists (c ++ packageDir spec) with
  | some r => .ok r
  | none => .error (.notFound (packageDir spec))

/-- The resolver `SystemWorld::file`: cache hit returns the stored bytes; on a miss the
root is the package root for package ids and `self.root` otherwise, the
virtual path is resolved against it, the file is read with OS errors
classified, and a successful read is inserted into the cache. Returns the
result together with the updated world. -/
def SystemWorld.file (w : SystemWorld) (env : Env) (id : FileId) :
    Except FileError Bytes × SystemWorld :=
  match findVal id w.files with
  | some b => (.ok b, w)
  | none =>
    let rootR : Except FileError FPath :=
      match id.pkg with
      | some spec => resolvePackageRoot env spec
      | none => .ok w.root
    match rootR with
    | .error e => (.error e, w)
    | .ok root =>
      let path := root ++ id.vpath
      match env.readFile path with
      | .ok b => (.ok b, { w with files := (id, b) :: w.files })
      | .errNotFound => (.error (.notFound path), w)
      | .errPermissionDenied => (.error .accessDenied, w)
      | .errOther msg => (.error (.other (some msg)), w)

/-- UTF-8 bytes of a string (`String::into_bytes`). -/
def strToBytes (s : String) : Bytes :=
  s.toUTF8.toList.map fun b => b.toNat

/-- The operation `SystemWorld::replace_files`: switch the active root to the fixed
virtual root, insert the synthesized main document under the id
`main.typ`, and insert every extra virtual file under its own id. Only
insertions happen; nothing is removed from the cache. -/
def SystemWorld.replace_files (w : SystemWorld) (mainContent : String)
    (newFiles : List (String × Bytes)) : SystemWorld :=
  let files := (⟨none, ["main.typ"]⟩, strToBytes mainContent) :: w.files
  let files := newFiles.foldl (fun fs pc => ((⟨none, [pc.1]⟩ : FileId), pc.2) :: fs) files
  { w with root := ["virtual"], main := ⟨none, ["main.typ"]⟩, files := files }

/-- Result of `SystemWorld::font`: Rust's unguarded `self.fonts[index]`
slice indexing panics out of bounds, which the embedding makes explicit. -/
inductive FontLookup where
  | panics
  | found (f : Option Font)
deriving DecidableEq

/-- The lookup `SystemWorld::font`: index into the slot vector (panicking out of
bounds), then return the `OnceLock`'s value, computing it on first use:
bytes from the face's source (a failed read yields no font), then
`Font::new`. -/
def SystemWorld.font (w : SystemWorld) (env : Env) (index : Nat) : FontLookup :=
  match w.fonts[index]? with
  | none => .panics
  | some slot =>
    .found (match slot.font with
      | some cached => cached
      | none =>
        match slot.source with
        | .binary b => env.fontNew b slot.index
        | .sharedFile _ b => env.fontNew b slot.index
        | .file p =>
          match env.readFile p with
          | .ok b => env.fontNew b slot.index
          | _ => none)

/-! ## Font metadata and the variant comparison order (`main.rs`)

`typst::text::FontInfo` carries a family name and a `FontVariant`.
`FontVariant` in the typst crate is `struct { style, weight, stretch }`
with a derived `Ord`, i.e. lexicographic by *style first, then weight,
then stretch*; `FontStyle`'s derived `Ord` is `Normal < Italic < Oblique`.
String comparison is lexicographic (UTF-8 byte order coincides with
code-point order). -/

inductive FontStyle where
  | normal
  | italic
  | oblique
deriving DecidableEq

/-- The constructor index of `FontStyle`, realising its derived `Ord`
(`Normal < Italic < Oblique`). -/
def styleRank : FontStyle → Nat
  | .normal => 0
  | .italic => 1
  | .oblique => 2

/-- A `typst::text::FontVariant` (weight and stretch are `u16`-ranged). -/
structure FontVariant where
  style : FontStyle
  weight : Nat
  stretch : Nat
deriving DecidableEq

/-- A `typst::text::FontInfo`, restricted to the fields `main.rs` reads. -/
structure FontInfo where
  family : String
  variant : FontVariant
deriving DecidableEq

/-- The derived `Ord` of `FontVariant`: style, then weight, then stretch. -/
def cmpVariant (a b : FontVariant) : Ordering :=
  (compare (styleRank a.style) (styleRank b.style)).then
    ((compare a.weight b.weight).then (compare a.stretch b.stretch))

/-- The comparator of the scheduler's sort (`main.rs` line 193):
`a.family.cmp(&b.family).then(a.variant.cmp(&b.variant))`. -/
def cmpFont (a b : FontInfo) : Ordering :=
  (compare a.family b.family).then (cmpVariant a.variant b.variant)

/-- The comparator `cmpFont` as the "may precede" Boolean relation of a stable sort. -/
def leFont (a b : FontInfo) : Bool := (cmpFont a b).isLE

/-- The variant comparator the specification describes instead: weight,
then stretch, then style. Stated only to be compared with `cmpVariant`. -/
def cmpVariantSpec (a b : FontVariant) : Ordering :=
  (compare a.weight b.weight).then
    ((compare a.stretch b.stretch).then (compare (styleRank a.style) (styleRank b.style)))

/-- The specification's sort relation: family, then `cmpVariantSpec`. -/
def leFontSpec (a b : FontInfo) : Bool :=
  ((compare a.family b.family).then (cmpVariantSpec a.variant b.variant)).isLE

instance : Batteries.TransCmp cmpFont :=
  show Batteries.TransCmp (compareLex (compareOn fun f : FontInfo => f.family)
      (compareLex (compareOn fun f : FontInfo => styleRank f.variant.style)
        (compareLex (compareOn fun f : FontInfo => f.variant.weight)
          (compareOn fun f : FontInfo => f.variant.stretch)))) from
    inferInstance

/-! ## Family enumeration, filtering and selection (`render_variants`,
`main.rs` lines 170-193)

The font book's `families()` enumeration is a sequence of
(family name, faces of that family), passed in as a list (the book does
not pre-sort families globally). The include/exclude regular expressions
enter as their matching functions `String → Bool`, compiled patterns being
external to this program. -/

/-- The two family filters of `render_variants`: keep a family when the
include pattern (if any) matches it, then drop it when the exclude pattern
(if any) matches it. -/
def survivingFamilies (book : List (String × List FontInfo))
    (inc exc : Option (String → Bool)) : List (String × List FontInfo) :=
  (book.filter fun fam =>
      match inc with
      | none => true
      | some r => r fam.1).filter
    fun fam =>
      match exc with
      | none => true
      | some r => !r fam.1

/-- The flat face selection of `render_variants`:
`fonts.next().into_iter().chain(fonts.take_while(|_| args.variants))` for
each surviving family. -/
def fontsSelected (book : List (String × List FontInfo))
    (inc exc : Option (String → Bool)) (variantsFlag : Bool) : List FontInfo :=
  (survivingFamilies book inc exc).flatMap fun fam =>
    match fam.2 with
    | [] => []
    | f :: rest => f :: rest.takeWhile fun _ => variantsFlag

/-- The deterministic sort of step 2:
`fonts.sort_by(|a, b| a.family.cmp(&b.family).then(a.variant.cmp(&b.variant)))`,
a stable sort, embedded as a stable merge sort under `leFont`. -/
def sortFonts (fonts : List FontInfo) : List FontInfo :=
  fonts.mergeSort leFont

/-- Enumeration, filtering, selection and sort of `render_variants`. -/
def selectFonts (book : List (String × List FontInfo))
    (inc exc : Option (String → Bool)) (variantsFlag : Bool) : List FontInfo :=
  sortFonts (fontsSelected book inc exc variantsFlag)

/-! ## The parallel batch (`render_variants`, `main.rs` lines 195-252)

`fonts.into_par_iter().map_init(..).collect()` runs one task per font on a
worker pool and writes each task's result into the slot of the font's
original index; the collected vector reads the slots in index order. The
embedding makes the completion order an explicit schedule `σ` (the task
indices in the order they execute) and the per-task work an explicit pure
function `r` (compilation and rendering are deterministic collaborators),
so order-independence can be quantified over `σ`. -/

/-- One rendered variant (`main.rs` `struct Render`). -/
structure Render where
  font : FontInfo
  bytes : Bytes
  width : Nat
  height : Nat
deriving DecidableEq

/-- Execute the tasks of `tasks` in the completion order `σ`: each task
`i` computes `r tasks[i]` and stores it at slot `i` of the result buffer.
Slots no task wrote stay `none`. -/
def runSchedule {α β : Type} (tasks : List α) (r : α → β) (σ : List Nat) :
    List (Option β) :=
  σ.foldl (fun buf i => buf.set i ((tasks[i]?).map r))
    (List.replicate tasks.length none)

/-- The whole scheduler on an already-selected variant set: sort (step 2),
then run the parallel batch under completion order `σ` and collect by
original index. -/
def renderVariantsPar (selected : List FontInfo) (r : FontInfo → Render)
    (σ : List Nat) : List (Option Render) :=
  runSchedule (sortFonts selected) r σ

/-! ## Collection page width (`render_collection`, `main.rs` lines 76-95)

`map_pixels` is `|x| (x as f32) / args.ppi * 72.0`; the page width is the
maximum of the mapped render widths (`0.0` for an empty batch), and the
synthesized document sets
`page(width: calc.max({page_width}pt, 20cm) + 2 * margin)`, flooring the
content width at 20cm. The `f32` arithmetic is embedded exactly over `ℚ`
(every quantity involved is far below `f32`'s integer-exact range in the
claims checked here). -/

/-- The conversion `map_pixels`: pixels to points at `ppi` resolution. -/
def mapPixels (ppi : ℚ) (x : Nat) : ℚ := (x : ℚ) / ppi * 72

/-- The maximum mapped render width, `0` when there is no render
(`max_by(..).unwrap_or(0.0)`). -/
def pageWidth (ppi : ℚ) (rs : List Render) : ℚ :=
  ((rs.map fun r => mapPixels ppi r.width).max?).getD 0

/-- The fixed minimum content width of the collection page: `20cm` in
points, i.e. `200 * 72 / 25.4`. -/
def minPageWidth : ℚ := 72000 / 127

/-- The uniform page content width: `calc.max({page_width}pt, 20cm)` from
the synthesized document template. -/
def contentWidth (ppi : ℚ) (rs : List Render) : ℚ :=
  max (pageWidth ppi rs) minPageWidth

/-! ## Output path (`main`, `main.rs` lines 60-68) -/

/-- The command-line arguments of `Args` that `main`'s output-path logic
reads: the input path and the optional `--output` path (both kept as
plain strings; only the final extension matters here). -/
structure Args where
  input : String
  output : Option String
deriving DecidableEq

/-- Rust `PathBuf::with_extension` for a file-name path: replace everything
after the last `.` of the name by `ext` (the whole name counts as stem
when it has no `.`, or only a leading one). -/
def withExtension (p : String) (ext : String) : String :=
  match (p.data.reverse.dropWhile fun c => c ≠ '.') with
  | [] => ⟨p.data ++ ('.' :: ext.data)⟩
  | _ :: stemRev =>
    if stemRev.isEmpty then ⟨p.data ++ ('.' :: ext.data)⟩
    else ⟨stemRev.reverse ++ ('.' :: ext.data)⟩

/-- The output path `main` actually writes to (`main.rs` line 65):
`args.input.with_extension("variants.pdf")`. `args.output` is not
consulted. -/
def mainOutputPath (args : Args) : String :=
  withExtension args.input "variants.pdf"

/-! ## Catalog construction (`SystemWorld::new`, `world.rs` lines 34-55)

For each face of the font database, `with_face_data(face.id, FontInfo::new)`
yields `None` when the face's data cannot be loaded at all, and
`Some(None)` when the data loads but metadata extraction fails. The loop
propagates the first kind as an error (`.ok_or(..)?`) and silently skips
the second. -/

/-- One discovered face as the construction loop sees it: the outcome of
`with_face_data(face.id, FontInfo::new)` plus the fields copied into a
`FontSlot`. -/
structure Face where
  dataLoad : Option (Option FontInfo)
  index : Nat
  source : FontSource
deriving DecidableEq

/-- The font-loading loop of `SystemWorld::new`: build the book's
`FontInfo` list and the `FontSlot` vector, failing on the first face whose
data cannot be loaded and skipping faces whose metadata extraction fails. -/
def loadFonts : List Face → Except String (List FontInfo × List FontSlot)
  | [] => .ok ([], [])
  | f :: rest =>
    match f.dataLoad with
    | none => .error "failed to load font file"
    | some none => loadFonts rest
    | some (some info) =>
      match loadFonts rest with
      | .error e => .error e
      | .ok (book, slots) =>
        .ok (info :: book, { index := f.index, source := f.source, font := none } :: slots)

/-! ## Concrete fixtures used by the closed theorems below -/

/-- Arguments of a run that supplies `--output custom.pdf` for the input
`doc.typ`. -/
def c1Args : Args := { input := "doc.typ", output := some "custom.pdf" }

/-- The package specifier `@preview/example:0.1.0`. -/
def c3Spec : PackageSpec := { ns := "preview", name := "example", version := "0.1.0" }

/-- A file of the package `c3Spec`. -/
def c3Id : FileId := { pkg := some c3Spec, vpath := ["lib.typ"] }

/-- A machine whose data directory `data` contains the installed package
`c3Spec`, with the requested file present at its install location
`data/typst/packages/preview/example/0.1.0/lib.typ` and nothing anywhere
else. -/
def c3Env : Env :=
  { dataDir := some ["data"]
    cacheDir := none
    dirExists := fun p => decide (p = ["data", "typst", "packages", "preview", "example", "0.1.0"])
    readFile := fun p =>
      if p = ["data", "typst", "packages", "preview", "example", "0.1.0", "lib.typ"]
      then .ok [80, 75] else .errNotFound
    fontNew := fun _ _ => none }

/-- A fresh world with project root `proj` and an empty cache. -/
def c3World : SystemWorld :=
  { root := ["proj"], main := { pkg := none, vpath := ["main.typ"] }, fonts := [], files := [] }

/-- A face whose data cannot be loaded: `with_face_data` returns `None`. -/
def c4BadFace : Face := { dataLoad := none, index := 0, source := .binary [] }

/-- A face whose data loads but whose metadata extraction fails:
`with_face_data` returns `Some(None)`. -/
def c4MetaFailFace : Face := { dataLoad := some none, index := 1, source := .binary [3] }

/-- Metadata of a face that loads fine. -/
def c4Info : FontInfo :=
  { family := "Good", variant := { style := .normal, weight := 400, stretch := 1000 } }

/-- A face that loads fine. -/
def c4GoodFace : Face := { dataLoad := some (some c4Info), index := 0, source := .binary [5] }

/-- A 400-weight normal-style variant at default stretch. -/
def normal400 : FontVariant := { style := .normal, weight := 400, stretch := 1000 }

/-- A 700-weight normal-style variant at default stretch. -/
def normal700 : FontVariant := { style := .normal, weight := 700, stretch := 1000 }

/-- The face ("Zeta", 400, normal) of the specification's example. -/
def zeta400 : FontInfo := { family := "Zeta", variant := normal400 }

/-- The face ("Alpha", 700, normal) of the specification's example. -/
def alpha700 : FontInfo := { family := "Alpha", variant := normal700 }

/-- The face ("Alpha", 400, normal) of the specification's example. -/
def alpha400 : FontInfo := { family := "Alpha", variant := normal400 }

/-- The font book of the specification's ordering example. -/
def exBook : List (String × List FontInfo) :=
  [("Zeta", [zeta400]), ("Alpha", [alpha700, alpha400])]

/-- A face of family A, italic style, weight 400. -/
def a400italic : FontInfo :=
  { family := "A", variant := { style := .italic, weight := 400, stretch := 1000 } }

/-- A face of family A, normal style, weight 700. -/
def a700normal : FontInfo :=
  { family := "A", variant := { style := .normal, weight := 700, stretch := 1000 } }

/-- A one-family book on which weight-first and style-first variant
orders disagree. -/
def cBook : List (String × List FontInfo) := [("A", [a400italic, a700normal])]

/-- The family set of the specification's include/exclude example. -/
def notoBook : List (String × List FontInfo) :=
  [("NotoSans", []), ("NotoSansMono", []), ("Arial", [])]

/-- A machine whose project root `proj` holds a file `a.png` with bytes
`[1]`. -/
def c8Env : Env :=
  { dataDir := none
    cacheDir := none
    dirExists := fun _ => false
    readFile := fun p => if p = ["proj", "a.png"] then .ok [1] else .errNotFound
    fontNew := fun _ _ => none }

/-- A fresh world over the project root `proj`. -/
def c8W0 : SystemWorld :=
  { root := ["proj"], main := ⟨none, ["main.typ"]⟩, fonts := [], files := [] }

/-- The id of the project file `a.png`. -/
def c8Id : FileId := ⟨none, ["a.png"]⟩

/-- Two variants of distinct families for the scheduler example. -/
def exFontA : FontInfo :=
  { family := "B", variant := { style := .normal, weight := 400, stretch := 1000 } }

/-- Second variant for the scheduler example. -/
def exFontB : FontInfo :=
  { family := "C", variant := { style := .normal, weight := 500, stretch := 1000 } }

/-- A concrete deterministic per-task renderer. -/
def exRenderOf : FontInfo → Render :=
  fun f => { font := f, bytes := [], width := 100, height := 50 }

/-- A placeholder face for the width example's renders. -/
def dummyFont : FontInfo :=
  { family := "D", variant := { style := .normal, weight := 400, stretch := 1000 } }

/-- Renders of pixel widths 100 and 300 (the specification's example). -/
def exRenders : List Render :=
  [{ font := dummyFont, bytes := [], width := 100, height := 10 },
   { font := dummyFont, bytes := [], width := 300, height := 10 }]

/-- An environment whose every oracle is trivial (no fonts decode, no
files exist). -/
def c10Env : Env :=
  { dataDir := none
    cacheDir := none
    dirExists := fun _ => false
    readFile := fun _ => .errNotFound
    fontNew := fun _ _ => none }

/-- A world holding exactly one font slot, already decoded to font 7. -/
def c10World : SystemWorld :=
  { root := []
    main := ⟨none, ["main.typ"]⟩
    fonts := [{ index := 0, source := .binary [9], font := some (some 7) }]
    files := [] }

/-! ## Helper lemmas -/

/-- The scheduler buffer keeps its length under every write. -/
theorem foldlSet_length {α β : Type} (tasks : List α) (r : α → β) :
    ∀ (σ : List Nat) (buf : List (Option β)),
      (σ.foldl (fun buf i => buf.set i ((tasks[i]?).map r)) buf).length = buf.length := by
  intro σ
  induction σ with
  | nil => intro buf; rfl
  | cons j rest ih =>
    intro buf
    rw [List.foldl_cons, ih, List.length_set]

/-- A slot no task of the schedule writes keeps its initial value. -/
theorem foldlSet_getElem?_not_mem {α β : Type} (tasks : List α) (r : α → β) :
    ∀ (σ : List Nat) (buf : List (Option β)) (i : Nat), i ∉ σ →
      (σ.foldl (fun buf i => buf.set i ((tasks[i]?).map r)) buf)[i]? = buf[i]? := by
  intro σ
  induction σ with
  | nil => intro buf i _; rfl
  | cons j rest ih =>
    intro buf i hi
    rw [List.foldl_cons, ih _ _ (fun h => hi (List.mem_cons_of_mem _ h)),
      List.getElem?_set_ne (fun h => hi (by rw [h]; exact List.mem_cons_self _ _))]

/-- A slot some task of the schedule writes ends at that task's result,
however often and in whatever order the schedule visits it. -/
theorem foldlSet_getElem?_mem {α β : Type} (tasks : List α) (r : α → β) :
    ∀ (σ : List Nat) (buf : List (Option β)) (i : Nat), i ∈ σ → i < buf.length →
      (σ.foldl (fun buf i => buf.set i ((tasks[i]?).map r)) buf)[i]? =
        some ((tasks[i]?).map r) := by
  intro σ
  induction σ with
  | nil => intro buf i hi; exact absurd hi (List.not_mem_nil i)
  | cons j rest ih =>
    intro buf i hi hlen
    rw [List.foldl_cons]
    by_cases hmem : i ∈ rest
    · exact ih _ _ hmem (by rwa [List.length_set])
    · have hij : i = j := by
        rcases List.mem_cons.mp hi with h | h
        · exact h
        · exact absurd h hmem
      rw [foldlSet_getElem?_not_mem tasks r rest _ _ hmem, hij,
        List.getElem?_set_self (by rw [← hij]; exact hlen)]

/-- A schedule that executes every task index exactly once produces the
per-index results in original task order, whatever the execution order. -/
theorem runSchedule_eq {α β : Type} (tasks : List α) (r : α → β) (σ : List Nat)
    (hσ : σ.Perm (List.range tasks.length)) :
    runSchedule tasks r σ = tasks.map (some ∘ r) := by
  apply List.ext_getElem?
  intro i
  by_cases hi : i < tasks.length
  · have hmem : i ∈ σ := hσ.mem_iff.mpr (List.mem_range.mpr hi)
    rw [runSchedule, foldlSet_getElem?_mem tasks r σ _ _ hmem
      (by rwa [List.length_replicate]), List.getElem?_map,
      List.getElem?_eq_getElem hi]
    rfl
  · have hmem : i ∉ σ := fun h =>
      hi (List.mem_range.mp (hσ.mem_iff.mp h))
    rw [runSchedule, foldlSet_getElem?_not_mem tasks r σ _ _ hmem,
      List.getElem?_map, List.getElem?_eq_none (show tasks.length ≤ i from Nat.not_lt.mp hi),
      List.getElem?_replicate]
    simp [hi]

/-- Totality of the scheduler's sort relation. -/
theorem leFont_or (a b : FontInfo) : leFont a b || leFont b a := by
  have hsymm := @Batteries.OrientedCmp.symm FontInfo cmpFont inferInstance a b
  unfold leFont
  cases h : cmpFont a b <;> cases h' : cmpFont b a <;>
    simp_all [Ordering.isLE, Ordering.swap]

/-- Transitivity of the scheduler's sort relation. -/
theorem leFont_trans (a b c : FontInfo) (hab : leFont a b) (hbc : leFont b c) :
    leFont a c := by
  have h1 : cmpFont a b ≠ .gt := by
    cases h : cmpFont a b <;> simp_all [leFont, Ordering.isLE]
  have h2 : cmpFont b c ≠ .gt := by
    cases h : cmpFont b c <;> simp_all [leFont, Ordering.isLE]
  have h3 := @Batteries.TransCmp.le_trans FontInfo cmpFont inferInstance a b c h1 h2
  cases h : cmpFont a c <;> simp_all [leFont, Ordering.isLE]

/-- The scheduler's sort leaves the faces pairwise ordered under
family-then-variant comparison. -/
theorem sortFonts_pairwise (fonts : List FontInfo) :
    List.Pairwise (fun a b => leFont a b = true) (sortFonts fonts) :=
  List.sorted_mergeSort (fun a b c => leFont_trans a b c) (fun a b => leFont_or a b) fonts

/-- The scheduler's sort permutes the selection. -/
theorem sortFonts_perm (fonts : List FontInfo) : (sortFonts fonts).Perm fonts :=
  List.mergeSort_perm fonts leFont

/-- Taking while a constantly true predicate holds takes everything. -/
theorem takeWhile_const_true {α : Type} (l : List α) :
    l.takeWhile (fun _ => true) = l := by
  induction l with
  | nil => rfl
  | cons a l ih => simp [List.takeWhile, ih]

/-- Taking while a constantly false predicate holds takes nothing. -/
theorem takeWhile_const_false {α : Type} (l : List α) :
    l.takeWhile (fun _ => false) = [] := by
  cases l <;> rfl

/-- With variant comparison disabled the selection takes the first face of
each surviving family. -/
theorem fontsSelected_false (book : List (String × List FontInfo))
    (inc exc : Option (String → Bool)) :
    fontsSelected book inc exc false =
      (survivingFamilies book inc exc).flatMap fun fam => fam.2.take 1 := by
  unfold fontsSelected
  congr 1
  funext fam
  cases fam.2 with
  | nil => rfl
  | cons f rest => simp [takeWhile_const_false]

/-- With variant comparison enabled the selection takes every face of each
surviving family. -/
theorem fontsSelected_true (book : List (String × List FontInfo))
    (inc exc : Option (String → Bool)) :
    fontsSelected book inc exc true =
      (survivingFamilies book inc exc).flatMap fun fam => fam.2 := by
  unfold fontsSelected
  congr 1
  funext fam
  cases h : fam.2 with
  | nil => rfl
  | cons f rest => simp [takeWhile_const_true]

/-- A family survives the two filters exactly when the include pattern (if
given) matches it and the exclude pattern (if given) does not. -/
theorem survivingFamilies_mem (book : List (String × List FontInfo))
    (inc exc : Option (String → Bool)) (fam : String × List FontInfo) :
    fam ∈ survivingFamilies book inc exc ↔
      fam ∈ book ∧ (∀ r, inc = some r → r fam.1 = true) ∧
        (∀ r, exc = some r → r fam.1 = false) := by
  unfold survivingFamilies
  rw [List.mem_filter, List.mem_filter]
  cases inc <;> cases exc <;> simp [and_assoc]

/-- Consing an entry onto the cache cannot make a present key absent. -/
theorem findVal_cons_ne_none (id : FileId) (e : FileId × Bytes)
    (l : List (FileId × Bytes)) (h : findVal id l ≠ none) :
    findVal id (e :: l) ≠ none := by
  obtain ⟨k, v⟩ := e
  by_cases hk : k = id <;> simp [findVal, hk, h]

/-- Folding the virtual-file inserts over the cache cannot make a present
key absent. -/
theorem findVal_foldl_cons_ne_none (id : FileId) (extra : List (String × Bytes)) :
    ∀ (l : List (FileId × Bytes)), findVal id l ≠ none →
      findVal id (extra.foldl
        (fun fs pc => ((⟨none, [pc.1]⟩ : FileId), pc.2) :: fs) l) ≠ none := by
  induction extra with
  | nil => intro l h; exact h
  | cons pc rest ih =>
    intro l h
    exact ih _ (findVal_cons_ne_none _ _ _ h)

/-- Resolving a cached id returns the cached bytes and leaves the world
unchanged, whatever the machine's state. -/
theorem file_cached (w : SystemWorld) (env : Env) (id : FileId) (b : Bytes)
    (h : findVal id w.files = some b) :
    w.file env id = (.ok b, w) := by
  unfold SystemWorld.file
  rw [h]

/-- Replacing the file set keeps every previously cached id present. -/
theorem replace_files_preserves (w : SystemWorld) (id : FileId) (b : Bytes)
    (mainContent : String) (extra : List (String × Bytes))
    (h : findVal id w.files = some b) :
    findVal id (w.replace_files mainContent extra).files ≠ none := by
  unfold SystemWorld.replace_files
  exact findVal_foldl_cons_ne_none id extra _
    (findVal_cons_ne_none id _ _ (by simp [h]))

/-- A left max-fold over rationals yields its seed or a list element, is
at least the seed, and bounds every element. -/
theorem foldl_max_spec (as : List ℚ) : ∀ (a : ℚ),
    (as.foldl max a = a ∨ as.foldl max a ∈ as) ∧ a ≤ as.foldl max a ∧
      ∀ x ∈ as, x ≤ as.foldl max a := by
  induction as with
  | nil => intro a; exact ⟨Or.inl rfl, le_refl a, by simp⟩
  | cons b rest ih =>
    intro a
    obtain ⟨hmem, hle, hub⟩ := ih (max a b)
    refine ⟨?_, le_trans (le_max_left a b) hle, ?_⟩
    · rcases hmem with h | h
      · rcases max_choice a b with hc | hc
        · exact Or.inl (by rw [List.foldl_cons, h, hc])
        · exact Or.inr (by rw [List.foldl_cons, h, hc]; exact List.mem_cons_self _ _)
      · exact Or.inr (List.mem_cons_of_mem _ h)
    · intro x hx
      rcases List.mem_cons.mp hx with h | h
      · rw [h, List.foldl_cons]
        exact le_trans (le_max_right a b) hle
      · exact hub x h

/-- On a nonempty rational list, the defaulted maximum is an element and
an upper bound. -/
theorem max?_getD_spec (l : List ℚ) (hne : l ≠ []) :
    ((l.max?).getD 0 ∈ l) ∧ ∀ x ∈ l, x ≤ (l.max?).getD 0 := by
  cases l with
  | nil => exact absurd rfl hne
  | cons a as =>
    obtain ⟨hmem, hle, hub⟩ := foldl_max_spec as a
    have hthis : (a :: as).max? = some (as.foldl max a) := by
      simp [List.max?]
    rw [hthis]
    refine ⟨?_, ?_⟩
    · rcases hmem with h | h
      · rw [Option.getD_some, h]; exact List.mem_cons_self _ _
      · rw [Option.getD_some]; exact List.mem_cons_of_mem _ h
    · intro x hx
      rcases List.mem_cons.mp hx with h | h
      · rw [h, Option.getD_some]; exact hle
      · rw [Option.getD_some]; exact hub x h

/-- The construction loop on faces whose data all loads: metadata
successes populate book and slots, metadata failures are skipped. -/
theorem loadFonts_spec (faces : List Face) (h : ∀ f ∈ faces, f.dataLoad ≠ none) :
    loadFonts faces = .ok
      (faces.filterMap fun f => f.dataLoad.getD none,
       (faces.filter fun f => (f.dataLoad.getD none).isSome).map
         fun f => { index := f.index, source := f.source, font := none }) := by
  induction faces with
  | nil => rfl
  | cons f rest ih =>
    have hf := h f (List.mem_cons_self _ _)
    have hrest := fun g hg => h g (List.mem_cons_of_mem _ hg)
    cases hd : f.dataLoad with
    | none => exact absurd hd hf
    | some o =>
      cases o with
      | none => simp [loadFonts, hd, ih hrest]
      | some info => simp [loadFonts, hd, ih hrest]

/-! ## Claims -/

/-- C1: the claim says the final artifact is written to the user-supplied
output path when one is given. In fact `main` computes the output path
from the input path alone (`args.input.with_extension("variants.pdf")`)
and never reads `args.output`: with input `doc.typ` and
`--output custom.pdf` the artifact still goes to `doc.variants.pdf`. -/
theorem c1_output_option_ignored :
    c1Args.output = some "custom.pdf" ∧
    mainOutputPath c1Args = "doc.variants.pdf" ∧
    mainOutputPath c1Args ≠ "custom.pdf" :=
  ⟨rfl, by decide, by decide⟩

/-- C2: collected render order equals the deterministic sorted order of
step 2 and never the completion order: whatever permutation of the task
indices the workers complete in, the collected sequence is the sorted
selection mapped through the per-task renderer, so any two runs agree; in
particular the two-font example collected under completion orders
`[1, 0]` and `[0, 1]` gives identical sequences. -/
theorem c2_render_order_deterministic :
    (∀ (selected : List FontInfo) (r : FontInfo → Render) (σ₁ σ₂ : List Nat),
      σ₁.Perm (List.range selected.length) → σ₂.Perm (List.range selected.length) →
        renderVariantsPar selected r σ₁ = (sortFonts selected).map (some ∘ r) ∧
        renderVariantsPar selected r σ₁ = renderVariantsPar selected r σ₂) ∧
    renderVariantsPar [exFontA, exFontB] exRenderOf [1, 0] =
      renderVariantsPar [exFontA, exFontB] exRenderOf [0, 1] := by
  have general : ∀ (selected : List FontInfo) (r : FontInfo → Render) (σ₁ σ₂ : List Nat),
      σ₁.Perm (List.range selected.length) → σ₂.Perm (List.range selected.length) →
        renderVariantsPar selected r σ₁ = (sortFonts selected).map (some ∘ r) ∧
        renderVariantsPar selected r σ₁ = renderVariantsPar selected r σ₂ := by
    intro selected r σ₁ σ₂ h₁ h₂
    have hlen : (sortFonts selected).length = selected.length := by
      unfold sortFonts
      exact (List.mergeSort_perm selected leFont).length_eq
    have e₁ := runSchedule_eq (sortFonts selected) r σ₁ (by rw [hlen]; exact h₁)
    have e₂ := runSchedule_eq (sortFonts selected) r σ₂ (by rw [hlen]; exact h₂)
    exact ⟨e₁, e₁.trans e₂.symm⟩
  refine ⟨general, ?_⟩
  obtain ⟨-, h⟩ := general [exFontA, exFontB] exRenderOf [1, 0] [0, 1]
    (by decide) (by decide)
  exact h

/-- C3: for an uncached package file the code checks the data directory
and then the cache directory for one containing the package's install
path and never downloads, and fails with NotFound when neither contains
it — but on success it resolves the file against the data/cache directory
itself rather than the package's install location. Concretely: the file
lives at `data/typst/packages/preview/example/0.1.0/lib.typ` (as the last
conjunct shows), the install-path existence check passes, yet resolution
reads `data/lib.typ` and fails with NotFound on that path. -/
theorem c3_package_lookup_reads_base_dir :
    (c3World.file c3Env c3Id).1 = .error (.notFound ["data", "lib.typ"]) ∧
    c3Env.dirExists (["data"] ++ packageDir c3Spec) = true ∧
    c3Env.readFile (["data"] ++ packageDir c3Spec ++ c3Id.vpath) = .ok [80, 75] :=
  ⟨rfl, by decide, rfl⟩

/-- C4 counterexample: a discovered face whose data cannot be loaded at
all makes catalog construction fail with an error, so it is not true that
no face failure aborts construction. -/
theorem c4_counterexample_load_failure_aborts :
    loadFonts [c4BadFace] = .error "failed to load font file" := rfl

/-- C4 (amended): every discovered face whose data loads but whose
metadata extraction fails is skipped silently — construction succeeds and
such a face contributes no FontSlot — whereas a face whose data cannot be
loaded at all aborts construction. The general part covers every face
list whose data all loads; the closed part shows a metadata-failing face
being skipped next to a good one. -/
theorem c4_metadata_failures_skipped_silently :
    (∀ faces : List Face, (∀ f ∈ faces, f.dataLoad ≠ none) →
      loadFonts faces = .ok
        (faces.filterMap fun f => f.dataLoad.getD none,
         (faces.filter fun f => (f.dataLoad.getD none).isSome).map
           fun f => { index := f.index, source := f.source, font := none })) ∧
    loadFonts [c4GoodFace, c4MetaFailFace] =
      .ok ([c4Info], [{ index := 0, source := .binary [5], font := none }]) :=
  ⟨loadFonts_spec, rfl⟩

/-- C5 counterexample: the claim orders variants by (weight, stretch,
style). On the one-family book holding (italic, 400) and (normal, 700)
the code's sort puts (normal, 700) first, and that output is not sorted
ascending under the claim's weight-first key, which would demand
(italic, 400) first. -/
theorem c5_counterexample_weight_first_order :
    selectFonts cBook none none true = [a700normal, a400italic] ∧
    ¬ List.Pairwise (fun a b => leFontSpec a b = true) [a700normal, a400italic] := by
  constructor
  · simp +decide [selectFonts, sortFonts, fontsSelected, survivingFamilies, List.mergeSort,
      cBook, a400italic, a700normal]
  · decide

/-- C5 (amended): for every surviving family the scheduler takes exactly
the first face with variant comparison disabled and all faces with it
enabled; the flat sequence is then stably sorted by family name first and
by variant key (style, weight, stretch) ascending second — the derived
order of typst's FontVariant — and the faces [("Zeta",400,normal),
("Alpha",700,normal), ("Alpha",400,normal)] yield Alpha/400, Alpha/700,
Zeta/400. -/
theorem c5_selection_and_sort_order :
    (∀ (book : List (String × List FontInfo)) (inc exc : Option (String → Bool)),
      fontsSelected book inc exc false =
        ((survivingFamilies book inc exc).flatMap fun fam => fam.2.take 1) ∧
      fontsSelected book inc exc true =
        ((survivingFamilies book inc exc).flatMap fun fam => fam.2)) ∧
    (∀ (book : List (String × List FontInfo)) (inc exc : Option (String → Bool))
        (v : Bool),
      (selectFonts book inc exc v).Perm (fontsSelected book inc exc v) ∧
      List.Pairwise (fun a b => leFont a b = true) (selectFonts book inc exc v)) ∧
    selectFonts exBook none none true = [alpha400, alpha700, zeta400] := by
  refine ⟨fun book inc exc => ⟨fontsSelected_false book inc exc, fontsSelected_true book inc exc⟩,
    fun book inc exc v => ⟨sortFonts_perm _, sortFonts_pairwise _⟩, ?_⟩
  simp +decide [selectFonts, sortFonts, fontsSelected, survivingFamilies, List.mergeSort,
    List.merge, exBook, zeta400, alpha700, alpha400, normal400, normal700]

/-- C6: a family survives filtering exactly when the include pattern
(when given) matches it and the exclude pattern (when given) does not, so
exclusion wins on conflict; and the families {NotoSans, NotoSansMono,
Arial} under include `^Noto` (anchored prefix match) and exclude `Mono$`
(anchored suffix match) leave exactly {NotoSans}. -/
theorem c6_include_exclude_filtering :
    (∀ (book : List (String × List FontInfo)) (inc exc : Option (String → Bool))
        (fam : String × List FontInfo),
      fam ∈ survivingFamilies book inc exc ↔
        fam ∈ book ∧ (∀ r, inc = some r → r fam.1 = true) ∧
          (∀ r, exc = some r → r fam.1 = false)) ∧
    survivingFamilies notoBook
        (some fun s => "Noto".data.isPrefixOf s.data)
        (some fun s => "Mono".data.isSuffixOf s.data) = [("NotoSans", [])] :=
  ⟨survivingFamilies_mem, by decide⟩

/-- C7: after replacing the file set with main content "X" and the extra
file `a.png` holding `bytesA`, resolving the world's main id yields the
bytes of "X" and resolving `a.png`'s id yields `bytesA`, for every
starting world and every machine state (the filesystem is never
consulted). -/
theorem c7_replace_files_overrides_filesystem (w : SystemWorld) (env : Env)
    (bytesA : Bytes) :
    ((w.replace_files "X" [("a.png", bytesA)]).file env
        (w.replace_files "X" [("a.png", bytesA)]).main).1 = .ok (strToBytes "X") ∧
    ((w.replace_files "X" [("a.png", bytesA)]).file env ⟨none, ["a.png"]⟩).1 = .ok bytesA := by
  constructor <;>
    simp +decide [SystemWorld.replace_files, SystemWorld.file, findVal]

/-- C8 counterexample: the claim says a once-cached FileId always
resolves to the same cached bytes afterwards. Cache `a.png` as `[1]` from
the project root, then replace the file set with an extra virtual file
`a.png` holding `[2]`: the same id now resolves to `[2]`, not the bytes
first cached. -/
theorem c8_counterexample_replace_overwrites :
    (c8W0.file c8Env c8Id).1 = .ok [1] ∧
    ((((c8W0.file c8Env c8Id).2).replace_files "M" [("a.png", [2])]).file c8Env c8Id).1 =
      .ok [2] ∧
    ([2] : Bytes) ≠ [1] := by
  refine ⟨rfl, ?_, by decide⟩
  rfl

/-- C8 (amended): resolving a cached FileId returns the currently cached
bytes without consulting storage — the outcome is the same under every
machine state and the world is unchanged — and replacing the file set
never removes a cached entry: every previously cached id stays
addressable after the active root switches to the virtual root (though a
colliding virtual file overwrites the bytes served for its id). -/
theorem c8_cached_ids_stable :
    (∀ (w : SystemWorld) (env env' : Env) (id : FileId) (b : Bytes),
      findVal id w.files = some b →
        w.file env id = (.ok b, w) ∧ w.file env id = w.file env' id) ∧
    (∀ (w : SystemWorld) (id : FileId) (b : Bytes) (m : String)
        (extra : List (String × Bytes)),
      findVal id w.files = some b →
        findVal id (w.replace_files m extra).files ≠ none) :=
  ⟨fun w env env' id b h => ⟨file_cached w env id b h,
      (file_cached w env id b h).trans (file_cached w env' id b h).symm⟩,
    fun w id b m extra h => replace_files_preserves w id b m extra h⟩

/-- C9: for every nonempty render sequence the computed content width is
the maximum of the renders' widths mapped by `pixels / ppi * 72`, floored
at the fixed 20cm minimum; pixel widths [100, 300] at 300 ppi give a
72-point maximum, and since the minimum exceeds it the content width is
the minimum. -/
theorem c9_page_width_is_floored_max :
    (∀ (ppi : ℚ) (rs : List Render), rs ≠ [] →
      (∃ r ∈ rs, pageWidth ppi rs = mapPixels ppi r.width) ∧
      (∀ r ∈ rs, mapPixels ppi r.width ≤ pageWidth ppi rs) ∧
      contentWidth ppi rs = max (pageWidth ppi rs) minPageWidth ∧
      (pageWidth ppi rs ≤ minPageWidth → contentWidth ppi rs = minPageWidth)) ∧
    pageWidth 300 exRenders = 72 ∧
    contentWidth 300 exRenders = minPageWidth := by
  refine ⟨?_, ?_, ?_⟩
  · intro ppi rs hne
    have hmap : (rs.map fun r => mapPixels ppi r.width) ≠ [] := by
      intro h
      exact hne (List.map_eq_nil_iff.mp h)
    obtain ⟨hmem, hub⟩ := max?_getD_spec _ hmap
    refine ⟨?_, ?_, rfl, fun h => max_eq_right h⟩
    · obtain ⟨r, hr, hval⟩ := List.mem_map.mp hmem
      exact ⟨r, hr, hval.symm⟩
    · intro r hr
      exact hub _ (List.mem_map.mpr ⟨r, hr, rfl⟩)
  · norm_num [pageWidth, exRenders, mapPixels, List.max?]
  · rw [contentWidth]
    norm_num [pageWidth, exRenders, mapPixels, List.max?, minPageWidth]

/-- C10: the font lookup indexes the slot vector without a guard, so an
index at or beyond the slot count panics rather than returning None,
while every in-range index yields a value; the closed conjuncts show both
on a one-slot world. -/
theorem c10_font_lookup_panics_out_of_range :
    (∀ (w : SystemWorld) (env : Env) (index : Nat),
      w.fonts.length ≤ index → w.font env index = .panics) ∧
    (∀ (w : SystemWorld) (env : Env) (index : Nat),
      index < w.fonts.length → ∃ v, w.font env index = .found v) ∧
    c10World.font c10Env 1 = .panics ∧
    c10World.font c10Env 0 = .found (some 7) := by
  refine ⟨?_, ?_, by decide, by decide⟩
  · intro w env index h
    unfold SystemWorld.font
    rw [List.getElem?_eq_none h]
  · intro w env index h
    unfold SystemWorld.font
    rw [List.getElem?_eq_getElem h]
    exact ⟨_, rfl⟩
